import Mathlib

/-!
Verification of the bp3d-logger core (BlockProject3D/debug.core).

The Rust sources are shallowly embedded: byte strings become `List Nat`
(each entry one byte), fixed-capacity buffers become length-bounded lists,
fallible operations return `Except`, and the stateful worker loop becomes a
step function over an explicit state together with an event trace.
-/

namespace Bp3d

/-! ## Level (src/level.rs)

The `Level` enum of `src/level.rs` (variants `None, Error, Warn, Info,
Debug, Trace`).  The `log::Level` of the external log crate used by
`src/internal.rs` embeds into the `error..trace` fragment. -/

inductive Level where
  | none
  | error
  | warn
  | info
  | debug
  | trace
deriving DecidableEq, Repr

/-! ## LogMsg (src/log_msg.rs)

`LogMsg` stores its body inline in a fixed 1 KiB structure; the byte buffer
is `LOG_MSG_SIZE` long and only the prefix of length `msg_len` is ever
observable (through `msg`, and `write` always appends at offset `msg_len`).
The model therefore keeps exactly that prefix as `body : List Nat`.
The timestamp is an abstract instant (`time : Nat`): the claims below never
inspect its value, only whether operations preserve it. -/

def LOG_CONTROL_SIZE : Nat := 40 + 16 + 4 + 1 + 3

def LOG_BUFFER_SIZE : Nat := 1024

def LOG_MSG_SIZE : Nat := LOG_BUFFER_SIZE - LOG_CONTROL_SIZE

structure Location where
  module_path : List Nat
  file : List Nat
  line : Nat
deriving DecidableEq, Repr

structure LogMsg where
  location : Location
  time : Nat
  level : Level
  body : List Nat
deriving DecidableEq, Repr

def LogMsg.with_time (location : Location) (time : Nat) (level : Level) : LogMsg :=
  { location := location, time := time, level := level, body := [] }

/-- Model of `LogMsg::new`; the current instant is passed explicitly
(`OffsetDateTime::now_utc()` in the source). -/
def LogMsg.new (location : Location) (now : Nat) (level : Level) : LogMsg :=
  LogMsg.with_time location now level

/-- Model of `LogMsg::write` (src/log_msg.rs lines 239-250): copy
`min(buf.len(), LOG_MSG_SIZE - msg_len)` bytes of `buf` to the end of the
buffer and return that count.  No UTF-8 boundary adjustment is performed by
the source. -/
def LogMsg.write (m : LogMsg) (buf : List Nat) : LogMsg × Nat :=
  let len := min buf.length (LOG_MSG_SIZE - m.body.length)
  ({ m with body := m.body ++ buf.take len }, len)

/-- Model of `LogMsg::clear`: the source resets `msg_len` to 0, making the
observable prefix of the buffer empty. -/
def LogMsg.clear (m : LogMsg) : LogMsg :=
  { m with body := [] }

/-- Model of `LogMsg::msg`: the observable prefix `buffer[..msg_len]`,
reinterpreted by the source as a `&str` via `from_utf8_unchecked`. -/
def LogMsg.msg (m : LogMsg) : List Nat :=
  m.body

inductive FmtError where
  | error
deriving DecidableEq, Repr

/-- Model of the `std::fmt::Write` impl for `LogMsg` (src/log_msg.rs lines
282-289): `write_str` calls `write` on the raw bytes, ignores the returned
count and always returns `Ok(())`. -/
def LogMsg.write_str (m : LogMsg) (s : List Nat) : LogMsg × Except FmtError Unit :=
  ((m.write s).1, Except.ok ())

/-! ## UTF-8 validity

Byte-level UTF-8 validity as checked by `std::str::from_utf8` (RFC 3629):
the property `LogMsg` relies on through `from_utf8_unchecked`. -/

def utf8Cont (b : Nat) : Bool :=
  128 ≤ b && b ≤ 191

def utf8Valid : List Nat → Bool
  | [] => true
  | b :: rest =>
    if b < 128 then utf8Valid rest
    else if 194 ≤ b && b ≤ 223 then
      match rest with
      | c :: r => utf8Cont c && utf8Valid r
      | _ => false
    else if b = 224 then
      match rest with
      | c :: d :: r => (160 ≤ c && c ≤ 191) && utf8Cont d && utf8Valid r
      | _ => false
    else if 225 ≤ b && b ≤ 236 then
      match rest with
      | c :: d :: r => utf8Cont c && utf8Cont d && utf8Valid r
      | _ => false
    else if b = 237 then
      match rest with
      | c :: d :: r => (128 ≤ c && c ≤ 159) && utf8Cont d && utf8Valid r
      | _ => false
    else if 238 ≤ b && b ≤ 239 then
      match rest with
      | c :: d :: r => utf8Cont c && utf8Cont d && utf8Valid r
      | _ => false
    else if b = 240 then
      match rest with
      | c :: d :: e :: r => (144 ≤ c && c ≤ 191) && utf8Cont d && utf8Cont e && utf8Valid r
      | _ => false
    else if 241 ≤ b && b ≤ 243 then
      match rest with
      | c :: d :: e :: r => utf8Cont c && utf8Cont d && utf8Cont e && utf8Valid r
      | _ => false
    else if b = 244 then
      match rest with
      | c :: d :: e :: r => (128 ≤ c && c ≤ 143) && utf8Cont d && utf8Cont e && utf8Valid r
      | _ => false
    else false

/-! ## Helper lemmas about `LogMsg.write` -/

/-- Concrete location used by closed evaluation theorems. -/
def loc0 : Location := { module_path := [116], file := [102], line := 1 }

lemma write_body_length (m : LogMsg) (buf : List Nat) :
    (m.write buf).1.body.length =
      m.body.length + min buf.length (LOG_MSG_SIZE - m.body.length) := by
  simp only [LogMsg.write, List.length_append, List.length_take]
  omega

lemma write_preserves_bound (m : LogMsg) (buf : List Nat)
    (h : m.body.length ≤ LOG_MSG_SIZE) :
    (m.write buf).1.body.length ≤ LOG_MSG_SIZE := by
  rw [write_body_length]
  omega

lemma foldl_write_preserves_bound (bufs : List (List Nat)) :
    ∀ m : LogMsg, m.body.length ≤ LOG_MSG_SIZE →
      (bufs.foldl (fun acc b => (acc.write b).1) m).body.length ≤ LOG_MSG_SIZE := by
  induction bufs with
  | nil => intro m h; simpa using h
  | cons b rest ih =>
    intro m h
    simpa using ih (m.write b).1 (write_preserves_bound m b h)

end Bp3d

/-! ## Claim theorems for LogMsg -/

namespace Bp3d

set_option maxRecDepth 10000 in
/-- C1: the spec states that when an append exceeds the remaining capacity
the body is truncated at a UTF-8-safe boundary and stays valid UTF-8.  The
source (`LogMsg::write`, src/log_msg.rs lines 239-250) copies exactly
`min(buf.len(), LOG_MSG_SIZE - msg_len)` bytes with no boundary rounding,
contradicting the safety comments of `LogMsg::msg` ("LogMsg is always
UTF-8").  Failing input: append 959 ASCII bytes then the two-byte code
point U+00E9 (`0xC3 0xA9`); both fragments are valid UTF-8, yet the write
keeps only the lead byte `0xC3`, leaving the stored body invalid UTF-8. -/
theorem c1_truncation_splits_code_point :
    utf8Valid (List.replicate 959 97) = true ∧
    utf8Valid [195, 169] = true ∧
    (((LogMsg.new loc0 0 Level.info).write (List.replicate 959 97)).2 = 959 ∧
      (((LogMsg.new loc0 0 Level.info).write
        (List.replicate 959 97)).1.write [195, 169]).2 = 1) ∧
    utf8Valid ((((LogMsg.new loc0 0 Level.info).write
      (List.replicate 959 97)).1.write [195, 169]).1.body) = false := by
  decide

/-- C2: `LogMsg::write` appends exactly
`min(buf.len, capacity - body_len)` bytes where the capacity is the
1024-byte structure minus the 64 control bytes, returns that count, the new
body length is the old length plus the returned count, and after any
sequence of appends the body length never exceeds the capacity. -/
theorem c2_write_append_bounds (m : LogMsg) (buf : List Nat)
    (h : m.body.length ≤ LOG_MSG_SIZE) :
    LOG_MSG_SIZE = 1024 - 64 ∧
    (m.write buf).2 = min buf.length (LOG_MSG_SIZE - m.body.length) ∧
    (m.write buf).1.body.length = m.body.length + (m.write buf).2 ∧
    (m.write buf).1.body.length ≤ LOG_MSG_SIZE ∧
    ∀ bufs : List (List Nat),
      (bufs.foldl (fun acc b => (acc.write b).1) m).body.length ≤ LOG_MSG_SIZE := by
  refine ⟨rfl, rfl, ?_, write_preserves_bound m buf h,
    fun bufs => foldl_write_preserves_bound bufs m h⟩
  rw [write_body_length]
  rfl

/-- C2 witness: the theorem applied to a concrete message and buffer. -/
theorem c2_witness :
    (LogMsg.new loc0 0 Level.info).body.length ≤ LOG_MSG_SIZE ∧
    ((LogMsg.new loc0 0 Level.info).write [104, 105]).2 = 2 := by
  have h := c2_write_append_bounds (LogMsg.new loc0 0 Level.info) [104, 105]
    (by decide)
  exact ⟨by decide, by rw [h.2.1]; decide⟩

/-- C8: `LogMsg::clear` resets the body to empty (so `msg` returns the
empty string) and preserves the location, the level and the timestamp. -/
theorem c8_clear_frame (m : LogMsg) :
    m.clear.msg = [] ∧
    m.clear.location = m.location ∧
    m.clear.level = m.level ∧
    m.clear.time = m.time := by
  simp [LogMsg.clear, LogMsg.msg]

/-! ## Target and module extraction (src/util.rs lines 43-50)

Rust `str::find("::")` returns the byte index of the first occurrence of
the two-byte pattern; strings are byte lists here and `:` is byte 58. -/

def findCC : List Nat → Option Nat
  | a :: b :: t => if a = 58 ∧ b = 58 then some 0 else (findCC (b :: t)).map (· + 1)
  | _ => none

/-- Model of `extract_target_module`: `target` is the slice before the
first `"::"` (the whole string when absent) and `module` is the slice after
it (the string `"main"`, bytes `[109, 97, 105, 110]`, when absent). -/
def extract_target_module (s : List Nat) : List Nat × List Nat :=
  let target := ((findCC s).map (fun v => s.take v)).getD s
  let module := (findCC s).map (fun v => s.drop (v + 2))
  (target, module.getD [109, 97, 105, 110])

lemma not_cc_prefix_nil (j : Nat) : ¬ ([58, 58] <+: ([] : List Nat).drop j) := by
  intro h
  simp [List.drop_nil] at h

lemma cc_prefix_head {a b : Nat} {t : List Nat}
    (h : [58, 58] <+: a :: b :: t) : a = 58 ∧ b = 58 := by
  rcases List.cons_prefix_cons.mp h with ⟨h1, h2⟩
  rcases List.cons_prefix_cons.mp h2 with ⟨h3, _⟩
  exact ⟨h1.symm, h3.symm⟩

lemma findCC_spec : ∀ s : List Nat,
    (findCC s = none → ∀ j, ¬ ([58, 58] <+: s.drop j)) ∧
    (∀ i, findCC s = some i →
      ([58, 58] <+: s.drop i) ∧ ∀ j, j < i → ¬ ([58, 58] <+: s.drop j))
  | [] => by
    refine ⟨fun _ j => not_cc_prefix_nil j, fun i hi => by simp [findCC] at hi⟩
  | [a] => by
    refine ⟨fun _ j => ?_, fun i hi => by simp [findCC] at hi⟩
    intro h
    match j with
    | 0 =>
      rw [List.drop_zero] at h
      rcases List.cons_prefix_cons.mp h with ⟨_, h2⟩
      exact absurd (List.eq_nil_of_prefix_nil h2) (by simp)
    | n + 1 =>
      rw [List.drop_succ_cons, List.drop_nil] at h
      simp at h
  | a :: b :: t => by
    have ih := findCC_spec (b :: t)
    by_cases hab : a = 58 ∧ b = 58
    · refine ⟨fun hnone => ?_, fun i hi => ?_⟩
      · simp [findCC, hab] at hnone
      · rw [findCC, if_pos hab] at hi
        obtain rfl : (0 : Nat) = i := Option.some.inj hi
        refine ⟨?_, fun j hj => absurd hj (Nat.not_lt_zero j)⟩
        rw [List.drop_zero]
        exact ⟨t, by rw [hab.1, hab.2]; rfl⟩
    · refine ⟨fun hnone => ?_, fun i hi => ?_⟩
      · rw [findCC, if_neg hab] at hnone
        have hnone2 : findCC (b :: t) = none := by
          simpa using hnone
        intro j
        match j with
        | 0 =>
          rw [List.drop_zero]
          intro h
          exact hab (cc_prefix_head h)
        | n + 1 =>
          rw [List.drop_succ_cons]
          exact ih.1 hnone2 n
      · rw [findCC, if_neg hab] at hi
        rcases Option.map_eq_some'.mp hi with ⟨k, hk, rfl⟩
        have hspec := ih.2 k hk
        refine ⟨?_, fun j hj => ?_⟩
        · rw [List.drop_succ_cons]
          exact hspec.1
        · match j with
          | 0 =>
            rw [List.drop_zero]
            intro h
            exact hab (cc_prefix_head h)
          | n + 1 =>
            rw [List.drop_succ_cons]
            exact hspec.2 n (by omega)

/-- C7: for every module-path string, `extract_target_module` returns the
prefix of the string before the first occurrence of `"::"` as the target
(the whole string when `"::"` is absent) and the remainder after that
first `"::"` as the module (the string `"main"` when `"::"` is absent). -/
theorem c7_extract_target_module (s : List Nat) (i : Nat) :
    (([58, 58] <+: s.drop i) → (∀ j, j < i → ¬ ([58, 58] <+: s.drop j)) →
      extract_target_module s = (s.take i, s.drop (i + 2))) ∧
    ((∀ j, j < s.length - 1 → ¬ ([58, 58] <+: s.drop j)) →
      extract_target_module s = (s, [109, 97, 105, 110])) := by
  constructor
  · intro hpre hmin
    have hfind : findCC s = some i := by
      cases hf : findCC s with
      | none => exact absurd hpre ((findCC_spec s).1 hf i)
      | some k =>
        have hk := (findCC_spec s).2 k hf
        rcases Nat.lt_trichotomy k i with h | h | h
        · exact absurd hk.1 (hmin k h)
        · rw [h]
        · exact absurd hpre (hk.2 i h)
    simp [extract_target_module, hfind]
  · intro hno
    have hfind : findCC s = none := by
      cases hf : findCC s with
      | none => rfl
      | some k =>
        have hk := (findCC_spec s).2 k hf
        have hlen := hk.1.length_le
        rw [List.length_drop] at hlen
        simp only [List.length_cons, List.length_nil] at hlen
        exact absurd hk.1 (hno k (by omega))
    simp [extract_target_module, hfind]

/-- C7 witness: the theorem applied to the paths `"a::b"` and `"ab"`. -/
theorem c7_witness :
    extract_target_module [97, 58, 58, 98] = ([97], [98]) ∧
    extract_target_module [97, 98] = ([97, 98], [109, 97, 105, 110]) := by
  constructor
  · exact (c7_extract_target_module [97, 58, 58, 98] 1).1 (by decide) (by decide)
  · exact (c7_extract_target_module [97, 98] 0).2 (by decide)

/-- C10: the `fmt::Write` impl for `LogMsg` always returns `Ok` for every
input string and every buffer state, and the resulting buffer state is
exactly the one produced by the truncating `write`, even when bytes are
discarded. -/
theorem c10_write_str_ok (m : LogMsg) (s : List Nat) :
    (m.write_str s).2 = Except.ok () ∧
    (m.write_str s).1 = (m.write s).1 := by
  simp [LogMsg.write_str]

end Bp3d

namespace Bp3d

/-! ## ArrayQueue (crossbeam-queue dependency)

The capture rings (`log_buffer` in src/internal.rs, `LogQueue` in
src/handler/log_queue.rs) are `crossbeam_queue::ArrayQueue` values.  The
dependency is not part of this repository; it is modelled from its
documented semantics: a bounded FIFO where `force_push` evicts the oldest
element when the queue is full (`ArrayQueue::new` rejects capacity 0).
`items` lists elements oldest first. -/

structure ArrayQueue (α : Type) where
  capacity : Nat
  items : List α
deriving DecidableEq

def ArrayQueue.new {α : Type} (cap : Nat) : ArrayQueue α :=
  { capacity := cap, items := [] }

def ArrayQueue.force_push {α : Type} (q : ArrayQueue α) (x : α) : ArrayQueue α :=
  if q.items.length < q.capacity then { q with items := q.items ++ [x] }
  else { q with items := q.items.drop 1 ++ [x] }

def ArrayQueue.pop {α : Type} (q : ArrayQueue α) : Option α × ArrayQueue α :=
  match q.items with
  | [] => (none, q)
  | x :: rest => (some x, { q with items := rest })

/-! ## The String-based LogMsg and the command channel (src/lib.rs, src/internal.rs)

`src/lib.rs` defines a String-based `LogMsg { msg, target, level }`; that
is the payload the command channel of `src/internal.rs` transports. -/

structure StrLogMsg where
  msg : List Nat
  target : List Nat
  level : Level
deriving DecidableEq, Repr

/-- Model of the `Command` enum of src/internal.rs. -/
inductive Command where
  | flush
  | log (msg : StrLogMsg)
  | terminate
  | enableLogBuffer
  | disableLogBuffer
deriving DecidableEq, Repr

/-- Maximum count of log messages in the channel (src/internal.rs). -/
def BUF_SIZE : Nat := 16

/-! ## Guard shutdown (src/lib.rs lines 254-265, src/internal.rs lines 189-202)

`Guard::drop` is modelled as the sequence of externally visible actions the
handle performs, in program order: storing the enabled flag, sending a
command on the channel, joining the worker thread, and draining the
in-memory log buffer.  `threadLive` tells whether `LoggerImpl::terminate`
finds a running worker thread to take. -/

inductive HandleEvent where
  | setEnabled (flag : Bool)
  | send (cmd : Command)
  | joinThread
  | popLogBuffer
deriving DecidableEq, Repr

/-- Model of `LoggerImpl::enable`: store the atomic enabled flag. -/
def LoggerImpl.enable (flag : Bool) : List HandleEvent :=
  [HandleEvent.setEnabled flag]

/-- Model of `LoggerImpl::terminate`: when a worker thread is live, send
`Flush`, send `Terminate`, join the thread; otherwise do nothing. -/
def LoggerImpl.terminate (threadLive : Bool) : List HandleEvent :=
  if threadLive then
    [HandleEvent.send Command.flush, HandleEvent.send Command.terminate,
      HandleEvent.joinThread]
  else []

/-- Model of `LoggerImpl::enable_log_buffer`: unconditionally send the
corresponding toggle command on the channel. -/
def LoggerImpl.enable_log_buffer (flag : Bool) : List HandleEvent :=
  if flag then [HandleEvent.send Command.enableLogBuffer]
  else [HandleEvent.send Command.disableLogBuffer]

/-- Model of `LoggerImpl::clear_log_buffer`: drain the in-memory buffer. -/
def LoggerImpl.clear_log_buffer : List HandleEvent :=
  [HandleEvent.popLogBuffer]

/-- Model of `Guard::drop` (src/lib.rs lines 254-265): disable the logger,
terminate (flush + terminate + join), disable the log buffer, clear it. -/
def Guard.drop (threadLive : Bool) : List HandleEvent :=
  LoggerImpl.enable false ++ LoggerImpl.terminate threadLive ++
    LoggerImpl.enable_log_buffer false ++ LoggerImpl.clear_log_buffer

/-- The final clause of claim C3: after the join, the handle sends nothing
further on the command channel. -/
def noSendAfterJoin (tr : List HandleEvent) : Prop :=
  ∀ i j c, tr.get? i = some HandleEvent.joinThread → i < j →
    tr.get? j ≠ some (HandleEvent.send c)

end Bp3d

namespace Bp3d

/-- C3 counterexample: the claim also states that after shutdown the handle
submits nothing further, but `Guard::drop` calls
`enable_log_buffer(false)` after `terminate()` returns, sending a
`DisableLogBuffer` command on the channel after the worker was joined. -/
theorem c3_send_after_join_counterexample :
    ¬ noSendAfterJoin (Guard.drop true) := by
  intro h
  exact h 3 4 Command.disableLogBuffer (by decide) (by decide) (by decide)

/-- C3 amended: on scoped shutdown with a live worker, the handle first
disables logging, then sends exactly one `Flush` followed by exactly one
`Terminate`, in that order, and joins the worker thread before the drop
returns; after the join it sends exactly one further command,
`DisableLogBuffer`, and drains the in-memory log buffer, submitting no
further `Log` or `Flush`. -/
theorem c3_drop_trace_amended :
    Guard.drop true =
      [HandleEvent.setEnabled false, HandleEvent.send Command.flush,
        HandleEvent.send Command.terminate, HandleEvent.joinThread,
        HandleEvent.send Command.disableLogBuffer, HandleEvent.popLogBuffer] := by
  rfl

/-! ## The worker thread (src/internal.rs lines 64-138)

The worker state holds which backends the `Logger` configuration carries
(`hasFile`, `hasStd`), the `enable_log_buffer` flag, the capture ring and
the trace of backend operations performed so far.  Backend I/O outcomes are
an environment parameter: `fileWriteErr`/`fileFlushErr` give the error a
file-backend operation reports (`none` = success), matching the
`Result<(), T::Error>` of `Backend::write`/`Backend::flush`. -/

def BP3D_LOGGER_TARGET : List Nat :=
  [98, 112, 51, 100, 45, 108, 111, 103, 103, 101, 114]

def ERR_WRITE_PREFIX : List Nat :=
  [67, 111, 117, 108, 100, 32, 110, 111, 116, 32, 119, 114, 105, 116, 101,
    32, 116, 111, 32, 102, 105, 108, 101, 32, 98, 97, 99, 107, 101, 110,
    100, 58, 32]

def ERR_FLUSH_PREFIX : List Nat :=
  [67, 111, 117, 108, 100, 32, 110, 111, 116, 32, 102, 108, 117, 115, 104,
    32, 102, 105, 108, 101, 32, 98, 97, 99, 107, 101, 110, 100, 58, 32]

structure Env where
  fileWriteErr : List Nat → List Nat → Level → Option (List Nat)
  fileFlushErr : Option (List Nat)

inductive BackendEvent where
  | fileWrite (target msg : List Nat) (level : Level)
  | fileFlush
  | stdWrite (target msg : List Nat) (level : Level)
deriving DecidableEq, Repr

structure ThreadState where
  hasFile : Bool
  hasStd : Bool
  enableLogBuffer : Bool
  logBuffer : ArrayQueue StrLogMsg
  events : List BackendEvent
deriving DecidableEq

/-- Model of `Thread::exec_commad` (src/internal.rs lines 85-128; the
source spells the name without the final n).  Returns the updated state
and the exit flag.  A backend event records the attempted operation; on a
reported error the worker logs the formatted error through the std
backend, exactly as the source does via the `log` helper (which is a
no-op when the corresponding backend is absent). -/
def Thread.exec_commad (env : Env) (st : ThreadState) (cmd : Command) :
    ThreadState × Bool :=
  match cmd with
  | Command.terminate => (st, true)
  | Command.flush =>
    let st1 :=
      if st.hasFile then
        let st2 := { st with events := st.events ++ [BackendEvent.fileFlush] }
        match env.fileFlushErr with
        | some e =>
          if st2.hasStd then
            { st2 with events := st2.events ++
                [BackendEvent.stdWrite BP3D_LOGGER_TARGET
                  (ERR_FLUSH_PREFIX ++ e) Level.error] }
          else st2
        | none => st2
      else st
    (st1, false)
  | Command.log buffer =>
    let st1 :=
      if st.hasFile then
        let st2 := { st with events := st.events ++
            [BackendEvent.fileWrite buffer.target buffer.msg buffer.level] }
        match env.fileWriteErr buffer.target buffer.msg buffer.level with
        | some e =>
          if st2.hasStd then
            { st2 with events := st2.events ++
                [BackendEvent.stdWrite BP3D_LOGGER_TARGET
                  (ERR_WRITE_PREFIX ++ e) Level.error] }
          else st2
        | none => st2
      else st
    let st3 :=
      if st1.hasStd then
        { st1 with events := st1.events ++
            [BackendEvent.stdWrite buffer.target buffer.msg buffer.level] }
      else st1
    let st4 :=
      if st3.enableLogBuffer then
        { st3 with logBuffer := st3.logBuffer.force_push buffer }
      else st3
    (st4, false)
  | Command.enableLogBuffer => ({ st with enableLogBuffer := true }, false)
  | Command.disableLogBuffer => ({ st with enableLogBuffer := false }, false)

/-- Model of `Thread::run` (src/internal.rs lines 130-138): receive
commands one at a time in order; stop when `exec_commad` requests exit.
The list is the sequence of commands the channel delivers; reaching its
end models the channel closing. -/
def Thread.run (env : Env) (st : ThreadState) : List Command → ThreadState
  | [] => st
  | c :: rest =>
    let r := Thread.exec_commad env st c
    if r.2 then r.1 else Thread.run env r.1 rest

lemma exec_commad_exit_iff (env : Env) (st : ThreadState) (c : Command) :
    (Thread.exec_commad env st c).2 = true ↔ c = Command.terminate := by
  cases c <;> simp [Thread.exec_commad]

lemma run_append_terminate (env : Env) :
    ∀ (cs1 : List Command) (st : ThreadState) (cs2 : List Command),
      (∀ c ∈ cs1, c ≠ Command.terminate) →
      Thread.run env st (cs1 ++ Command.terminate :: cs2) =
        Thread.run env st (cs1 ++ [Command.terminate]) := by
  intro cs1
  induction cs1 with
  | nil => intro st cs2 _; rfl
  | cons c rest ih =>
    intro st cs2 h
    have hc : c ≠ Command.terminate := h c (List.mem_cons_self c rest)
    have hcont : (Thread.exec_commad env st c).2 = false := by
      cases hb : (Thread.exec_commad env st c).2
      · rfl
      · exact absurd ((exec_commad_exit_iff env st c).mp hb) hc
    simp only [List.cons_append, Thread.run, hcont, Bool.false_eq_true,
      if_false]
    exact ih (Thread.exec_commad env st c).1 cs2
      (fun d hd => h d (List.mem_cons_of_mem c hd))

/-- C4: the worker processes commands one at a time in receive order
(`Thread.run` recurses over the delivered sequence) and its loop exits
only on `Terminate`: `exec_commad` requests exit exactly on `Terminate`,
and every command after the first `Terminate` is ignored. -/
theorem c4_worker_loop (env : Env) (st : ThreadState) (cs1 cs2 : List Command)
    (h : ∀ c ∈ cs1, c ≠ Command.terminate) :
    (∀ c, (Thread.exec_commad env st c).2 = true ↔ c = Command.terminate) ∧
    Thread.run env st (cs1 ++ Command.terminate :: cs2) =
      Thread.run env st (cs1 ++ [Command.terminate]) :=
  ⟨fun c => exec_commad_exit_iff env st c,
    run_append_terminate env cs1 st cs2 h⟩

def env0 : Env := { fileWriteErr := fun _ _ _ => none, fileFlushErr := none }

def st0 : ThreadState :=
  { hasFile := false, hasStd := true, enableLogBuffer := false,
    logBuffer := ArrayQueue.new BUF_SIZE, events := [] }

/-- C4 witness: commands delivered after a `Terminate` are ignored in a
concrete run. -/
theorem c4_witness :
    Thread.run env0 st0 ([Command.flush] ++ Command.terminate :: [Command.flush]) =
      Thread.run env0 st0 ([Command.flush] ++ [Command.terminate]) :=
  (c4_worker_loop env0 st0 [Command.flush] [Command.flush] (by decide)).2

end Bp3d

namespace Bp3d

/-! ## StdHandler (src/handler/stdout.rs)

`StdHandler::write` either skips the record (shared enable flag off) or
emits exactly one line to the stream chosen by `get_stream`; the color
policy only decides whether the line is written through termcolor, never
which stream receives it.  The tty status of each stream is an
environment parameter (`stdoutTty`, `stderrTty`).  The formatted text is
determined by the record fields carried in the output value. -/

inductive Stream where
  | stdout
  | stderr
deriving DecidableEq, Repr

inductive Colors where
  | enabled
  | disabled
  | auto
deriving DecidableEq, Repr

/-- Model of `StdHandler::get_stream` (src/handler/stdout.rs lines
116-124). -/
def StdHandler.get_stream (smart_stderr : Bool) (level : Level) : Stream :=
  match smart_stderr with
  | false => Stream.stdout
  | true =>
    match level with
    | Level.error => Stream.stderr
    | _ => Stream.stdout

structure StdOutput where
  stream : Stream
  colored : Bool
  record : LogMsg
deriving DecidableEq, Repr

/-- Model of `StdHandler::write` (src/handler/stdout.rs lines 132-174):
`none` when the shared enable flag is off, otherwise the emitted line. -/
def StdHandler.write (enable smart_stderr : Bool) (colors : Colors)
    (stdoutTty stderrTty : Bool) (msg : LogMsg) : Option StdOutput :=
  if !enable then none
  else
    let stream := StdHandler.get_stream smart_stderr msg.level
    let use_termcolor :=
      match colors with
      | Colors.disabled => false
      | Colors.enabled => true
      | Colors.auto =>
        match stream with
        | Stream.stdout => stdoutTty
        | Stream.stderr => stderrTty
    some { stream := stream, colored := use_termcolor, record := msg }

/-- C5: when the shared enable-stdout flag is false nothing is emitted;
otherwise exactly one line is emitted: with `smart_stderr = false` it goes
to stdout for every level, and with `smart_stderr = true` it goes to
stderr when the level is `Error` and to stdout for all other levels. -/
theorem c5_std_stream_selection (enable smart_stderr : Bool) (colors : Colors)
    (stdoutTty stderrTty : Bool) (msg : LogMsg) :
    (enable = false →
      StdHandler.write enable smart_stderr colors stdoutTty stderrTty msg = none) ∧
    (enable = true → smart_stderr = false →
      (StdHandler.write enable smart_stderr colors stdoutTty stderrTty msg).map
        StdOutput.stream = some Stream.stdout) ∧
    (enable = true → smart_stderr = true →
      (msg.level = Level.error →
        (StdHandler.write enable smart_stderr colors stdoutTty stderrTty msg).map
          StdOutput.stream = some Stream.stderr) ∧
      (msg.level ≠ Level.error →
        (StdHandler.write enable smart_stderr colors stdoutTty stderrTty msg).map
          StdOutput.stream = some Stream.stdout)) := by
  obtain ⟨loc, time, level, body⟩ := msg
  cases enable <;> cases smart_stderr <;> cases level <;> cases colors <;>
    simp [StdHandler.write, StdHandler.get_stream]

/-- C5 witness: the theorem applied to a disabled handler, to an
error-level record and to an info-level record on an enabled smart-stderr
handler. -/
theorem c5_witness :
    StdHandler.write false true Colors.disabled false false
      (LogMsg.new loc0 0 Level.error) = none ∧
    (StdHandler.write true true Colors.disabled false false
        (LogMsg.new loc0 0 Level.error)).map StdOutput.stream =
      some Stream.stderr ∧
    (StdHandler.write true true Colors.disabled false false
        (LogMsg.new loc0 0 Level.info)).map StdOutput.stream =
      some Stream.stdout := by
  refine ⟨(c5_std_stream_selection false true Colors.disabled false false
    (LogMsg.new loc0 0 Level.error)).1 rfl, ?_, ?_⟩
  · exact ((c5_std_stream_selection true true Colors.disabled false false
      (LogMsg.new loc0 0 Level.error)).2.2 rfl rfl).1 rfl
  · exact ((c5_std_stream_selection true true Colors.disabled false false
      (LogMsg.new loc0 0 Level.info)).2.2 rfl rfl).2 (by decide)

/-! ## LogQueue (src/handler/log_queue.rs) -/

def DEFAULT_BUF_SIZE : Nat := 32

structure LogQueue where
  queue : ArrayQueue LogMsg
deriving DecidableEq

/-- Model of `LogQueue::new`. -/
def LogQueue.new (buffer_size : Nat) : LogQueue :=
  { queue := ArrayQueue.new buffer_size }

/-- Model of the `Default` impl for `LogQueue`. -/
def LogQueue.default : LogQueue :=
  LogQueue.new DEFAULT_BUF_SIZE

/-- Model of `LogQueue::pop`. -/
def LogQueue.pop (q : LogQueue) : Option LogMsg × LogQueue :=
  let r := q.queue.pop
  (r.1, { queue := r.2 })

/-- Model of `LogQueueHandler::write` (src/handler/log_queue.rs lines
92-100): force-push a clone of the record into the queue. -/
def LogQueueHandler.write (q : LogQueue) (msg : LogMsg) : LogQueue :=
  { queue := q.queue.force_push msg }

def ringMsg1 : LogMsg := { LogMsg.new loc0 0 Level.info with body := [49] }

def ringMsg2 : LogMsg := { LogMsg.new loc0 0 Level.info with body := [50] }

def ringMsg3 : LogMsg := { LogMsg.new loc0 0 Level.info with body := [51] }

/-- The scenario of claim C6: three records pushed through
`LogQueueHandler::write` into a ring of capacity 2. -/
def ringScenario : LogQueue :=
  LogQueueHandler.write (LogQueueHandler.write
    (LogQueueHandler.write (LogQueue.new 2) ringMsg1) ringMsg2) ringMsg3

/-- C6: the capture ring never exceeds its configured capacity (the
default queue has capacity 32), a force-push into a full ring evicts the
oldest element currently present, and pushing `r1, r2, r3` into a ring of
capacity 2 lets a reader drain `r2` then `r3` and then nothing. -/
theorem c6_ring_capacity_eviction (q : LogQueue) (m : LogMsg)
    (hcap : 0 < q.queue.capacity)
    (hlen : q.queue.items.length ≤ q.queue.capacity) :
    LogQueue.default.queue.capacity = 32 ∧
    (LogQueueHandler.write q m).queue.items.length ≤ q.queue.capacity ∧
    (q.queue.items.length = q.queue.capacity →
      (LogQueueHandler.write q m).queue.items = q.queue.items.drop 1 ++ [m]) ∧
    (ringScenario.pop.1 = some ringMsg2 ∧
      ringScenario.pop.2.pop.1 = some ringMsg3 ∧
      ringScenario.pop.2.pop.2.pop.1 = none) := by
  refine ⟨rfl, ?_, ?_, by decide⟩
  · by_cases hfull : q.queue.items.length < q.queue.capacity
    · simp only [LogQueueHandler.write, ArrayQueue.force_push, if_pos hfull,
        List.length_append, List.length_cons, List.length_nil]
      omega
    · simp only [LogQueueHandler.write, ArrayQueue.force_push, if_neg hfull,
        List.length_append, List.length_cons, List.length_nil,
        List.length_drop]
      omega
  · intro hfull
    have hnot : ¬ q.queue.items.length < q.queue.capacity := by omega
    simp only [LogQueueHandler.write, ArrayQueue.force_push, if_neg hnot]

/-- C6 witness: the theorem applied to a concrete full ring of capacity
2. -/
theorem c6_witness :
    (LogQueueHandler.write
      { queue := { capacity := 2, items := [ringMsg1, ringMsg2] } }
      ringMsg3).queue.items = [ringMsg2, ringMsg3] := by
  have h := c6_ring_capacity_eviction
    { queue := { capacity := 2, items := [ringMsg1, ringMsg2] } }
    ringMsg3 (by decide) (by decide)
  rw [h.2.2.1 (by decide)]
  rfl

end Bp3d

namespace Bp3d

/-! ## FileHandler map lookup (src/handler/file.rs lines 59-74)

`FileHandler::get_create_open_file` keeps a `HashMap<String, BufWriter<File>>`
from target to open writer.  The map is an association list here (inserts
happen only for absent keys, so a front insert has the same lookup
behaviour as `HashMap::insert`); writers are abstract handles (`Nat`).
Opening a file is the fallible environment operation
`openFile : target → Option handle` (`none` models an `Err` from
`OpenOptions::open`).  The returned pair carries the final map and the
scrutinee of the source's `unwrap_unchecked`, i.e. the result of the
`get_mut` lookup performed after the insert branch. -/

def mapGet : List (List Nat × Nat) → List Nat → Option Nat
  | [], _ => none
  | (k, v) :: rest, t => if k = t then some v else mapGet rest t

def FileHandler.get_create_open_file (openFile : List Nat → Option Nat)
    (targets : List (List Nat × Nat)) (target : List Nat) :
    Except Unit (List (List Nat × Nat) × Option Nat) :=
  if (mapGet targets target).isNone then
    match openFile target with
    | none => Except.error ()
    | some f =>
      let targets2 := (target, f) :: targets
      Except.ok (targets2, mapGet targets2 target)
  else Except.ok (targets, mapGet targets target)

/-- C9: whenever `get_create_open_file` returns `Ok`, the per-target map
contains an entry for the requested target and the lookup behind the
`unwrap_unchecked` is `some`; the `Err` branch is taken exactly when the
target was absent and opening its file failed. -/
theorem c9_get_create_open_file (openFile : List Nat → Option Nat)
    (targets : List (List Nat × Nat)) (target : List Nat) :
    (∀ res, FileHandler.get_create_open_file openFile targets target =
        Except.ok res →
      res.2.isSome = true ∧ mapGet res.1 target = res.2) ∧
    (FileHandler.get_create_open_file openFile targets target =
        Except.error () ↔
      mapGet targets target = none ∧ openFile target = none) := by
  cases hm : mapGet targets target with
  | none =>
    cases ho : openFile target with
    | none =>
      refine ⟨fun res hres => ?_, by
        simp [FileHandler.get_create_open_file, hm, ho]⟩
      simp [FileHandler.get_create_open_file, hm, ho] at hres
    | some f =>
      refine ⟨fun res hres => ?_, by
        simp [FileHandler.get_create_open_file, hm, ho]⟩
      simp only [FileHandler.get_create_open_file, hm, Option.isNone_none,
        if_true, ho, Except.ok.injEq] at hres
      subst hres
      constructor
      · simp [mapGet]
      · simp [mapGet]
  | some v =>
    refine ⟨fun res hres => ?_, by
      simp [FileHandler.get_create_open_file, hm]⟩
    simp only [FileHandler.get_create_open_file, hm, Option.isNone_some,
      Bool.false_eq_true, if_false, Except.ok.injEq] at hres
    subst hres
    simp [hm]

/-- An open that always succeeds with writer handle 7. -/
def openOk : List Nat → Option Nat := fun _ => some 7

/-- An open that always fails. -/
def openFail : List Nat → Option Nat := fun _ => none

/-- C9 witness: the theorem applied to an empty map with an open that
succeeds, and to an empty map whose open fails. -/
theorem c9_witness :
    ((([([97], 7)], Option.some 7) :
        List (List Nat × Nat) × Option Nat).2.isSome = true ∧
      mapGet [([97], 7)] [97] = Option.some 7) ∧
    (FileHandler.get_create_open_file openFail [] [97] = Except.error () ↔
      mapGet [] [97] = none ∧ openFail [97] = none) :=
  ⟨(c9_get_create_open_file openOk [] [97]).1 ([([97], 7)], Option.some 7)
      (by rfl),
    (c9_get_create_open_file openFail [] [97]).2⟩

end Bp3d
